import Mathlib

/-!
# Verification of `detect_dead_files.py`

A shallow embedding of the dead-file detection engine of this repository:
path manipulation helpers (as used from `posixpath`, `pathlib` and
`fnmatch`), the repository walker `scan_repository`, the reference
resolver `_resolve_reference`, and the classifier `find_dead_files`,
together with theorems settling the specification claims.

Reference extraction (`_extract_references`) is regex driven and is
modelled by giving each file its extracted set of raw reference strings
as data (`FSFile.refs`); every claim quantifies over extracted
references, never over regex internals.
-/

namespace DeadFileDetector

/-! ## String and path primitives -/

/-- Split a character list on a separator, like Python `str.split(sep)`
(an empty string yields `[[]]`, i.e. `['']`). -/
def splitChar (sep : Char) : List Char → List (List Char)
  | [] => [[]]
  | c :: rest =>
    let r := splitChar sep rest
    if c = sep then [] :: r
    else
      match r with
      | [] => [[c]]
      | h :: t => (c :: h) :: t

/-- Join components with a separator character, like Python `sep.join`. -/
def joinComps (sep : Char) : List (List Char) → List Char
  | [] => []
  | [c] => c
  | c :: rest => c ++ sep :: joinComps sep rest

/-- Python `s.startswith(p)`. -/
def strStartsWith (s p : String) : Bool := p.data.isPrefixOf s.data

/-- Python `s.endswith(p)`. -/
def strEndsWith (s p : String) : Bool := p.data.reverse.isPrefixOf s.data.reverse

/-- Python `pat in s` (substring containment). -/
def listInfix (pat : List Char) : List Char → Bool
  | [] => pat.isEmpty
  | c :: rest => pat.isPrefixOf (c :: rest) || listInfix pat rest

/-- Python `pat in s` on strings. -/
def strContains (s pat : String) : Bool := listInfix pat.data s.data

/-- Python `str.lower`, restricted to ASCII as all paths in play are ASCII. -/
def strLower (s : String) : String := String.mk (s.data.map Char.toLower)

/-- `os.path.join(a, b)` for the two-argument POSIX case used by the script. -/
def joinPath (a b : String) : String :=
  if strStartsWith b "/" then b
  else if a = "" || strEndsWith a "/" then a ++ b
  else a ++ "/" ++ b

/-- `os.path.normpath` (POSIX), transcribed from `posixpath.normpath`. -/
def normpath (p : String) : String :=
  let slashes : Nat :=
    if strStartsWith p "/" then
      (if strStartsWith p "//" && !(strStartsWith p "///") then 2 else 1)
    else 0
  let comps := (splitChar '/' p.data).map String.mk
  let newComps := comps.foldl (fun acc comp =>
    if comp = "" || comp = "." then acc
    else if comp ≠ ".." || (slashes = 0 && acc = []) ||
        (acc ≠ [] && acc.getLast? = some "..") then acc ++ [comp]
    else if acc ≠ [] then acc.dropLast
    else acc) []
  let res := String.mk (List.replicate slashes '/') ++
    String.mk (joinComps '/' (newComps.map String.data))
  if res = "" then "." else res

/-- `os.path.basename` (POSIX). -/
def basename (p : String) : String :=
  String.mk ((p.data.reverse.takeWhile (fun c => c ≠ '/')).reverse)

/-- `os.path.dirname` (POSIX): the part before the last slash, with
trailing slashes stripped unless the head is all slashes. -/
def dirname (p : String) : String :=
  let head := (p.data.reverse.dropWhile (fun c => c ≠ '/')).reverse
  if head ≠ [] && head.any (fun c => c ≠ '/') then
    String.mk ((head.reverse.dropWhile (fun c => c = '/')).reverse)
  else String.mk head

/-- Length of the longest common prefix of two component lists
(`os.path.commonprefix` on component lists). -/
def commonLen : List String → List String → Nat
  | a :: as, b :: bs => if a = b then commonLen as bs + 1 else 0
  | _, _ => 0

/-- `os.path.relpath(p, start)` (POSIX) for absolute inputs, for which
`abspath` reduces to `normpath`. -/
def relpath (p start : String) : String :=
  let pl := ((splitChar '/' (normpath p).data).map String.mk).filter (fun c => c ≠ "")
  let sl := ((splitChar '/' (normpath start).data).map String.mk).filter (fun c => c ≠ "")
  let i := commonLen sl pl
  let rel := List.replicate (sl.length - i) ".." ++ pl.drop i
  if rel = [] then "." else String.mk (joinComps '/' (rel.map String.data))

/-- `pathlib.PurePath(p).suffix`: the extension of the final component;
empty when the last dot is leading or absent. -/
def pathSuffix (p : String) : String :=
  let name := (basename p).data
  let after := name.reverse.takeWhile (fun c => c ≠ '.')
  if after.length = name.length then ""
  else
    let i := name.length - 1 - after.length
    if 0 < i ∧ i < name.length - 1 then String.mk ('.' :: after.reverse) else ""

/-! ## `fnmatch` glob matching

Transcription of the regex produced by `fnmatch.translate` (POSIX, where
`normcase` is the identity): `*` matches any run of characters, `?` any
single character, `[seq]` a character class with `!` negation, `-`
ranges, and a first `]` taken literally; an unterminated `[` is literal. -/

/-- Scan to the closing `]` of a character class; `none` when unterminated. -/
def spanToBracket : List Char → Option (List Char × List Char)
  | [] => none
  | ']' :: t => some ([], t)
  | c :: t =>
    match spanToBracket t with
    | some (cls, rest) => some (c :: cls, rest)
    | none => none

/-- Parse a character class body following `[`: contents, negation flag,
and remainder of the pattern after `]`. -/
def findClass (l : List Char) : Option (List Char × Bool × List Char) :=
  let (neg, l1) : Bool × List Char :=
    match l with
    | '!' :: t => (true, t)
    | _ => (false, l)
  match l1 with
  | ']' :: t =>
    match spanToBracket t with
    | some (cls, rest) => some (']' :: cls, neg, rest)
    | none => none
  | _ =>
    match spanToBracket l1 with
    | some (cls, rest) => some (cls, neg, rest)
    | none => none

/-- Does character `c` belong to the class contents (with `-` ranges)? -/
def classMatch (c : Char) : List Char → Bool
  | x :: '-' :: y :: rest => (x ≤ c && c ≤ y) || classMatch c rest
  | x :: rest => (x = c) || classMatch c rest
  | [] => false

/-- Full-string glob match of pattern against string, with an explicit
recursion-depth budget: every recursive call strictly shrinks the sum of
the pattern and string lengths, so a budget exceeding that sum is never
exhausted. -/
def globMatch : Nat → List Char → List Char → Bool
  | 0, _, _ => false
  | fuel + 1, pat, str =>
    match pat, str with
    | [], s => s.isEmpty
    | '*' :: p, [] => globMatch fuel p []
    | '*' :: p, c :: s => globMatch fuel p (c :: s) || globMatch fuel ('*' :: p) s
    | '?' :: p, _ :: s => globMatch fuel p s
    | '[' :: p, c :: s =>
      match findClass p with
      | some (cls, neg, rest) =>
        (if neg then !(classMatch c cls) else classMatch c cls) && globMatch fuel rest s
      | none => (c = '[') && globMatch fuel p s
    | a :: p, c :: s => (a = c) && globMatch fuel p s
    | _ :: _, [] => false

/-- `fnmatch.fnmatch(name, pat)` on POSIX (the initial budget strictly
exceeds any reachable recursion depth). -/
def fnmatch (name pat : String) : Bool :=
  globMatch (pat.data.length + name.data.length + 1) pat.data name.data

/-! ## Configuration -/

/-- The configuration record (`_load_config`). The regex pattern groups
are not carried: extraction output is supplied as data per file. -/
structure Config where
  ignore_patterns : List String
  scan_extensions : List String
  special_files : List String
  min_file_size : Nat
  max_file_size : Nat

/-- The default configuration literal from `_load_config`. -/
def default_config : Config where
  ignore_patterns :=
    [".git/*", "*.log", "*.tmp", "node_modules/*", "__pycache__/*", "*.pyc",
     ".pytest_cache/*", "venv/*", "env/*", ".env", "dist/*", "build/*",
     "target/*", ".DS_Store", "*.swp", "*.bak", "coverage/*", ".coverage",
     ".tox/*"]
  scan_extensions :=
    [".py", ".js", ".ts", ".jsx", ".tsx", ".java", ".c", ".cpp",
     ".h", ".hpp", ".cs", ".php", ".rb", ".go", ".rs", ".swift",
     ".kt", ".scala", ".sh", ".bash", ".ps1", ".sql", ".html",
     ".css", ".scss", ".sass", ".less", ".vue", ".yaml", ".yml",
     ".json", ".xml", ".md", ".txt", ".cfg", ".conf", ".ini"]
  special_files :=
    ["README.md", "LICENSE", "CHANGELOG.md", "CONTRIBUTING.md",
     "requirements.txt", "package.json", "Dockerfile", "Makefile",
     ".gitignore", ".dockerignore", "setup.py", "pyproject.toml",
     "Cargo.toml", "pom.xml", "build.gradle", "composer.json"]
  min_file_size := 1
  max_file_size := 10485760

/-! ## Detector helpers -/

/-- `DeadFileDetector._should_ignore_file`: glob match OR substring match
against each ignore pattern. -/
def should_ignore_file (cfg : Config) (file_path : String) : Bool :=
  cfg.ignore_patterns.any (fun pat => fnmatch file_path pat || strContains file_path pat)

/-- `DeadFileDetector._is_scannable_file`. -/
def is_scannable_file (cfg : Config) (file_path : String) : Bool :=
  cfg.scan_extensions.contains (strLower (pathSuffix file_path))

/-- The fixed probe list of `_resolve_reference`. -/
def probe_extensions : List String := [".py", ".js", ".ts", ".java", ".cpp"]

/-- `DeadFileDetector._resolve_reference`, with `os.path.exists`
abstracted as the predicate `ex` (the state of the real filesystem). -/
def resolve_reference (ex : String → Bool) (root_dir reference base_path : String) :
    List String :=
  let base_dir := dirname base_path
  let rel_path := joinPath base_dir reference
  let acc1 := if ex rel_path then [normpath rel_path] else []
  let root_path := joinPath root_dir reference
  let acc2 := acc1 ++ (if ex root_path then [normpath root_path] else [])
  if pathSuffix reference = "" then
    acc2 ++ probe_extensions.flatMap (fun ext =>
      let test_path := reference ++ ext
      let rel_test := joinPath base_dir test_path
      let root_test := joinPath root_dir test_path
      if ex rel_test then [normpath rel_test]
      else if ex root_test then [normpath root_test]
      else [])
  else acc2

/-- `_is_potentially_important`: each entry-point regex `re.match`ed
against the lowercased basename is a literal prefix test. -/
def entry_point_patterns : List String :=
  ["main.", "index.", "app.", "server.", "start.", "run.",
   "__init__.", "setup.", "config.", "settings."]

/-- `DeadFileDetector._is_potentially_important`. -/
def is_potentially_important (file_path : String) : Bool :=
  let filename := strLower (basename file_path)
  entry_point_patterns.any (fun pat => strStartsWith filename pat)

/-! ## Scan state and reference-graph accumulation -/

/-- The detector's mutable scan state: `self.all_files` (a set, kept as
an insertion-ordered duplicate-free list) and `self.file_references`
(a dict from referenced path to the set of referrers). -/
structure ScanState where
  all_files : List String
  file_references : List (String × List String)
deriving Repr, DecidableEq

/-- Set insertion (Python `set.add`). -/
def insertNew (l : List String) (x : String) : List String :=
  if x ∈ l then l else l ++ [x]

/-- Is `k` a key of the reference dict (`k in self.file_references`)? -/
def isKey (m : List (String × List String)) (k : String) : Bool :=
  m.any (fun kv => kv.1 = k)

/-- The referrer set stored under key `k` (empty when absent). -/
def refLookup (m : List (String × List String)) (k : String) : List String :=
  match m.find? (fun kv => kv.1 = k) with
  | some kv => kv.2
  | none => []

/-- `self.file_references[target].add(referrer)` on a `defaultdict(set)`. -/
def addRef (m : List (String × List String)) (target referrer : String) :
    List (String × List String) :=
  if isKey m target then
    m.map (fun kv => if kv.1 = target then (kv.1, insertNew kv.2 referrer) else kv)
  else m ++ [(target, [referrer])]

/-! ## The filesystem model and `scan_repository` -/

/-- A regular file: its name, its size in bytes, and the set of raw
reference strings `_extract_references` yields from its content. -/
structure FSFile where
  name : String
  size : Nat
  refs : List String

/-- A directory tree. -/
inductive FSDir where
  | mk (name : String) (files : List FSFile) (subdirs : List FSDir)

/-- The name of a directory. -/
def FSDir.name : FSDir → String
  | .mk n _ _ => n

mutual
/-- All absolute paths (the directory itself, its files, and its
subtrees) rooted at `parent`; feeds the `os.path.exists` model. -/
def dirPaths (parent : String) : FSDir → List String
  | .mk name files subs =>
    let cur := joinPath parent name
    cur :: (files.map (fun f => joinPath cur f.name) ++ dirsPaths cur subs)

/-- `dirPaths` over a list of sibling directories. -/
def dirsPaths (parent : String) : List FSDir → List String
  | [] => []
  | d :: rest => dirPaths parent d ++ dirsPaths parent rest
end

/-- Every path that exists in the modelled filesystem. -/
def fsPaths (root_dir : String) (root_files : List FSFile) (root_subs : List FSDir) :
    List String :=
  root_dir :: (root_files.map (fun f => joinPath root_dir f.name) ++
    dirsPaths root_dir root_subs)

/-- `os.path.exists` over the modelled filesystem (the OS collapses `.`
and `..` components, hence the `normpath`). -/
def fsExists (root_dir : String) (root_files : List FSFile) (root_subs : List FSDir) :
    String → Bool :=
  fun p => (fsPaths root_dir root_files root_subs).contains (normpath p)

/-- The inner resolution loop of `scan_repository`: each resolved
candidate becomes an edge only if it is in `all_files` right now. -/
def addEdges (st : ScanState) (file_path : String) (resolved_files : List String) :
    ScanState :=
  resolved_files.foldl (fun s resolved =>
    if resolved ∈ s.all_files then
      { s with file_references := addRef s.file_references resolved file_path }
    else s) st

/-- Processing of a single regular file inside the `os.walk` loop of
`scan_repository`: ignore filter on the relative path, size filter, set
insertion, then (for scannable files) extraction and resolution. -/
def scanFile (cfg : Config) (root_dir : String) (ex : String → Bool) (cur : String)
    (st : ScanState) (f : FSFile) : ScanState :=
  let file_path := joinPath cur f.name
  let rel_path := relpath file_path root_dir
  if should_ignore_file cfg rel_path then st
  else if f.size < cfg.min_file_size || cfg.max_file_size < f.size then st
  else
    let st1 : ScanState := { st with all_files := insertNew st.all_files file_path }
    if is_scannable_file cfg rel_path then
      f.refs.foldl (fun s ref =>
        addEdges s file_path (resolve_reference ex root_dir ref file_path)) st1
    else st1

mutual
/-- Top-down `os.walk` over one directory: prune when the directory's
absolute path matches an ignore pattern, else process the directory's
files and then recurse into the subdirectories. -/
def walkDir (cfg : Config) (root_dir : String) (ex : String → Bool) (parent : String)
    (st : ScanState) : FSDir → ScanState
  | .mk name files subs =>
    let cur := joinPath parent name
    if should_ignore_file cfg cur then st
    else walkDirs cfg root_dir ex cur (files.foldl (scanFile cfg root_dir ex cur) st) subs
termination_by structural d => d

/-- `walkDir` over sibling directories, in listing order. -/
def walkDirs (cfg : Config) (root_dir : String) (ex : String → Bool) (cur : String)
    (st : ScanState) : List FSDir → ScanState
  | [] => st
  | d :: rest => walkDirs cfg root_dir ex cur (walkDir cfg root_dir ex cur st d) rest
termination_by structural l => l
end

/-- `DeadFileDetector.scan_repository` on a fresh detector: walk the
tree rooted at `root_dir` (whose direct files are `root_files` and
direct subdirectories `root_subs`), starting from empty state. -/
def scan_repository (cfg : Config) (root_dir : String) (root_files : List FSFile)
    (root_subs : List FSDir) : ScanState :=
  let ex := fsExists root_dir root_files root_subs
  walkDirs cfg root_dir ex root_dir
    (root_files.foldl (scanFile cfg root_dir ex root_dir)
      { all_files := [], file_references := [] }) root_subs

/-! ## The classifier `find_dead_files` -/

/-- The three output categories, as lists of root-relative paths. -/
structure DeadFiles where
  unreferenced : List String
  orphaned : List String
  suspicious : List String
deriving Repr, DecidableEq

deriving instance DecidableEq for Except

/-- One iteration of the first classification loop. -/
def classifyStep (cfg : Config) (st : ScanState) (root_dir : String)
    (df : DeadFiles) (file_path : String) : DeadFiles :=
  let rel_path := relpath file_path root_dir
  if cfg.special_files.contains (basename file_path) then df
  else if isKey st.file_references file_path then df
  else if is_potentially_important file_path then
    { df with suspicious := df.suspicious ++ [rel_path] }
  else
    { df with unreferenced := df.unreferenced ++ [rel_path] }

/-- `dir_file_count[dir_path]`: tracked files directly inside a directory. -/
def dirFileCount (all_files : List String) (dir_path : String) : Nat :=
  (all_files.filter (fun f => dirname f = dir_path)).length

/-- One iteration of the orphan-reclassification loop. -/
def orphanStep (st : ScanState) (root_dir : String) (df : DeadFiles)
    (file_path : String) : DeadFiles :=
  let dir_path := dirname file_path
  let rel_path := relpath file_path root_dir
  if dirFileCount st.all_files dir_path = 1 && df.unreferenced.contains rel_path &&
      !(is_potentially_important file_path) then
    { df with orphaned := df.orphaned ++ [rel_path],
              unreferenced := df.unreferenced.erase rel_path }
  else df

/-- `DeadFileDetector.find_dead_files`: raises `ValueError` on an empty
universe, else the two classification passes. -/
def find_dead_files (cfg : Config) (st : ScanState) (root_dir : String) :
    Except String DeadFiles :=
  if st.all_files.isEmpty then
    .error "Repository not scanned yet. Call scan_repository() first."
  else
    let step1 := st.all_files.foldl (classifyStep cfg st root_dir) ⟨[], [], []⟩
    .ok (st.all_files.foldl (orphanStep st root_dir) step1)

/-! ## Classification predicates (per-file restatement of the branches) -/

/-- A dead candidate: tracked, not specially named, no inbound edge. -/
def deadCand (cfg : Config) (st : ScanState) (f : String) : Bool :=
  !(cfg.special_files.contains (basename f)) && !(isKey st.file_references f)

/-- Condition under which the first pass emits `suspicious`. -/
def susCond (cfg : Config) (st : ScanState) (f : String) : Bool :=
  deadCand cfg st f && is_potentially_important f

/-- Condition under which the first pass emits `unreferenced`. -/
def unrCond (cfg : Config) (st : ScanState) (f : String) : Bool :=
  deadCand cfg st f && !(is_potentially_important f)

/-- Condition for final membership in `orphaned`. -/
def orphCond (cfg : Config) (st : ScanState) (f : String) : Bool :=
  unrCond cfg st f && (dirFileCount st.all_files (dirname f) == 1)

/-! ## Generic fold lemmas -/

theorem foldl_pres {α β : Type} (P : α → Prop) {g : α → β → α}
    (h : ∀ a x, P a → P (g a x)) : ∀ (l : List β) (a : α), P a → P (l.foldl g a)
  | [], _, ha => ha
  | _ :: rest, a, ha => foldl_pres P h rest _ (h a _ ha)

theorem foldl_attain {α β : Type} (P : α → Prop) {g : α → β → α} {x : β}
    (hmono : ∀ a y, P a → P (g a y)) (hx : ∀ a, P (g a x)) :
    ∀ (l : List β) (a : α), x ∈ l → P (l.foldl g a)
  | y :: rest, a, hmem => by
    rcases List.mem_cons.mp hmem with h | h
    · rw [List.foldl_cons]
      exact foldl_pres P hmono rest _ (h ▸ hx a)
    · exact foldl_attain P hmono hx rest (g a y) h

/-! ## Set-insertion lemmas -/

theorem insertNew_mem {l : List String} {x y : String} (h : y ∈ l) : y ∈ insertNew l x := by
  unfold insertNew
  split
  · exact h
  · exact List.mem_append_left _ h

theorem insertNew_self (l : List String) (x : String) : x ∈ insertNew l x := by
  unfold insertNew
  split
  · assumption
  · simp

theorem insertNew_nodup {l : List String} {x : String} (h : l.Nodup) :
    (insertNew l x).Nodup := by
  unfold insertNew
  split
  · exact h
  · rename_i hx
    rw [List.nodup_append_comm]
    exact List.nodup_cons.mpr ⟨hx, h⟩

/-! ## Reference-dictionary lemmas -/

theorem isKey_cons {kv : String × List String} {m : List (String × List String)}
    {k : String} : isKey (kv :: m) k = (decide (kv.1 = k) || isKey m k) := by
  simp [isKey]

theorem refLookup_cons {kv : String × List String} {m : List (String × List String)}
    {k : String} : refLookup (kv :: m) k = if kv.1 = k then kv.2 else refLookup m k := by
  unfold refLookup
  by_cases h : kv.1 = k
  · rw [List.find?_cons_of_pos _ (by simpa using h), if_pos h]
  · rw [List.find?_cons_of_neg _ (by simpa using h), if_neg h]

theorem refLookup_eq_nil {m : List (String × List String)} {k : String}
    (h : isKey m k = false) : refLookup m k = [] := by
  induction m with
  | nil => rfl
  | cons kv rest ih =>
    rw [isKey_cons] at h
    simp only [Bool.or_eq_false_iff, decide_eq_false_iff_not] at h
    rw [refLookup_cons, if_neg h.1]
    exact ih h.2

theorem refLookup_map_update (t r k : String) :
    ∀ m : List (String × List String),
      refLookup (m.map fun kv => if kv.1 = t then (kv.1, insertNew kv.2 r) else kv) k =
        if k = t ∧ isKey m t = true then insertNew (refLookup m t) r else refLookup m k
  | [] => by simp [refLookup, isKey]
  | kv :: rest => by
    have ih := refLookup_map_update t r k rest
    by_cases h1 : kv.1 = t <;> by_cases h2 : k = t <;> by_cases h3 : kv.1 = k <;>
      simp_all [List.map_cons, refLookup_cons, isKey_cons]

theorem isKey_addRef {m : List (String × List String)} {t r k : String} :
    isKey (addRef m t r) k = true ↔ (isKey m k = true ∨ k = t) := by
  unfold addRef
  split
  · rename_i hkey
    constructor
    · intro h
      left
      unfold isKey at h ⊢
      rcases List.any_eq_true.mp h with ⟨kv', hmem, hp⟩
      rcases List.mem_map.mp hmem with ⟨kv, hkv, hfk⟩
      refine List.any_eq_true.mpr ⟨kv, hkv, ?_⟩
      have : kv'.1 = kv.1 := by
        subst hfk
        split <;> rfl
      rw [← this]
      exact hp
    · intro h
      have hm : isKey m k = true := by
        rcases h with h | h
        · exact h
        · exact h ▸ hkey
      unfold isKey at hm ⊢
      rcases List.any_eq_true.mp hm with ⟨kv, hkv, hp⟩
      refine List.any_eq_true.mpr ⟨if kv.1 = t then (kv.1, insertNew kv.2 r) else kv,
        List.mem_map.mpr ⟨kv, hkv, rfl⟩, ?_⟩
      split <;> exact hp
  · rename_i hkey
    unfold isKey
    rw [List.any_append]
    simp only [Bool.or_eq_true, List.any_cons, List.any_nil, Bool.or_false,
      decide_eq_true_eq]
    constructor
    · rintro (h | h)
      · exact Or.inl h
      · exact Or.inr h.symm
    · rintro (h | h)
      · exact Or.inl h
      · exact Or.inr h.symm

theorem refLookup_append_single (t k : String) (vs : List String) :
    ∀ m : List (String × List String), isKey m t = false →
      refLookup (m ++ [(t, vs)]) k = if k = t then vs else refLookup m k
  | [], _ => by
    by_cases h : k = t
    · simp [refLookup_cons, refLookup, h]
    · simp [refLookup_cons, refLookup, h, Ne.symm h]
  | kv :: rest, hkey => by
    rw [isKey_cons] at hkey
    simp only [Bool.or_eq_false_iff, decide_eq_false_iff_not] at hkey
    have ih := refLookup_append_single t k vs rest hkey.2
    by_cases h2 : k = t <;> by_cases h3 : kv.1 = k <;>
      simp_all [List.cons_append, refLookup_cons, hkey.1]

theorem refLookup_addRef {m : List (String × List String)} (t r k : String) :
    refLookup (addRef m t r) k =
      if k = t then insertNew (refLookup m t) r else refLookup m k := by
  unfold addRef
  split
  · rename_i hkey
    rw [refLookup_map_update]
    by_cases h : k = t
    · rw [if_pos ⟨h, hkey⟩, if_pos h]
    · rw [if_neg (fun hh => h hh.1), if_neg h]
  · rename_i hkey
    have hk : isKey m t = false := by
      revert hkey
      cases isKey m t <;> simp
    rw [refLookup_append_single t k [r] m hk, refLookup_eq_nil hk]
    by_cases h : k = t <;> simp [h, insertNew]

theorem mem_refLookup_isKey {m : List (String × List String)} {k x : String}
    (h : x ∈ refLookup m k) : isKey m k = true := by
  unfold refLookup at h
  rcases hf : m.find? (fun kv => kv.1 = k) with _ | kv
  · rw [hf] at h
    simp at h
  · have hp := List.find?_some hf
    exact List.any_eq_true.mpr ⟨kv, List.mem_of_find?_eq_some hf, hp⟩

/-! ## Edge-accumulation lemmas -/

theorem addEdges_all_files (fp : String) :
    ∀ (rs : List String) (st : ScanState), (addEdges st fp rs).all_files = st.all_files
  | [], _ => rfl
  | y :: rs, st => by
    have h1 : addEdges st fp (y :: rs) =
        addEdges (if y ∈ st.all_files then
          { st with file_references := addRef st.file_references y fp } else st) fp rs := rfl
    rw [h1, addEdges_all_files fp rs]
    split <;> rfl

theorem addEdges_lookup_mono (fp k x : String) :
    ∀ (rs : List String) (st : ScanState),
      x ∈ refLookup st.file_references k →
      x ∈ refLookup (addEdges st fp rs).file_references k
  | [], _, h => h
  | y :: rs, st, h => by
    have h1 : addEdges st fp (y :: rs) =
        addEdges (if y ∈ st.all_files then
          { st with file_references := addRef st.file_references y fp } else st) fp rs := rfl
    rw [h1]
    apply addEdges_lookup_mono fp k x rs
    split
    · show x ∈ refLookup (addRef st.file_references y fp) k
      rw [refLookup_addRef]
      split
      · rename_i hk
        exact insertNew_mem (hk ▸ h)
      · exact h
    · exact h

theorem addEdges_key_inv (fp : String) :
    ∀ (rs : List String) (st : ScanState) (k : String),
      isKey (addEdges st fp rs).file_references k = true →
      isKey st.file_references k = true ∨ k ∈ st.all_files
  | [], _, _, h => Or.inl h
  | y :: rs, st, k, h => by
    have h1 : addEdges st fp (y :: rs) =
        addEdges (if y ∈ st.all_files then
          { st with file_references := addRef st.file_references y fp } else st) fp rs := rfl
    rw [h1] at h
    rcases addEdges_key_inv fp rs _ k h with h2 | h2
    · revert h2
      split
      · intro h2
        rcases isKey_addRef.mp h2 with h3 | h3
        · exact Or.inl h3
        · rename_i hy
          exact Or.inr (h3 ▸ hy)
      · exact fun h2 => Or.inl h2
    · right
      revert h2
      split <;> exact id

theorem addEdges_attain (fp : String) :
    ∀ (rs : List String) (st : ScanState) (tgt : String),
      tgt ∈ rs → tgt ∈ st.all_files →
      fp ∈ refLookup (addEdges st fp rs).file_references tgt
  | [], _, tgt, hmem, _ => absurd hmem (List.not_mem_nil tgt)
  | y :: rs, st, tgt, hmem, hall => by
    have h1 : addEdges st fp (y :: rs) =
        addEdges (if y ∈ st.all_files then
          { st with file_references := addRef st.file_references y fp } else st) fp rs := rfl
    rw [h1]
    rcases List.mem_cons.mp hmem with he | he
    · subst he
      rw [if_pos hall]
      apply addEdges_lookup_mono
      show fp ∈ refLookup (addRef st.file_references tgt fp) tgt
      rw [refLookup_addRef, if_pos rfl]
      exact insertNew_self _ _
    · apply addEdges_attain fp rs _ tgt he
      split <;> exact hall

/-! ## Lemmas about the reference-resolution fold of one file -/

theorem refsFold_all_files (root_dir : String) (ex : String → Bool) (fp : String) :
    ∀ (refs : List String) (s : ScanState),
      (refs.foldl (fun s ref =>
        addEdges s fp (resolve_reference ex root_dir ref fp)) s).all_files = s.all_files
  | [], _ => rfl
  | r :: refs, s => by
    rw [List.foldl_cons, refsFold_all_files root_dir ex fp refs, addEdges_all_files]

theorem refsFold_lookup_mono (root_dir : String) (ex : String → Bool) (fp k x : String) :
    ∀ (refs : List String) (s : ScanState),
      x ∈ refLookup s.file_references k →
      x ∈ refLookup ((refs.foldl (fun s ref =>
        addEdges s fp (resolve_reference ex root_dir ref fp)) s)).file_references k
  | [], _, h => h
  | r :: refs, s, h => by
    rw [List.foldl_cons]
    exact refsFold_lookup_mono root_dir ex fp k x refs _
      (addEdges_lookup_mono _ _ _ _ _ h)

theorem refsFold_key_inv (root_dir : String) (ex : String → Bool) (fp : String)
    (A : List String) :
    ∀ (refs : List String) (s : ScanState),
      s.all_files = A → (∀ k, isKey s.file_references k = true → k ∈ A) →
      ((refs.foldl (fun s ref =>
          addEdges s fp (resolve_reference ex root_dir ref fp)) s).all_files = A ∧
        ∀ k, isKey ((refs.foldl (fun s ref =>
          addEdges s fp (resolve_reference ex root_dir ref fp)) s)).file_references k = true →
          k ∈ A)
  | [], _, h1, h2 => ⟨h1, h2⟩
  | r :: refs, s, h1, h2 => by
    rw [List.foldl_cons]
    apply refsFold_key_inv root_dir ex fp A refs
    · rw [addEdges_all_files]
      exact h1
    · intro k hk
      rcases addEdges_key_inv _ _ s k hk with h3 | h3
      · exact h2 k h3
      · exact h1 ▸ h3

theorem refsFold_attain (root_dir : String) (ex : String → Bool) (fp tgt ref₀ : String)
    (hres : tgt ∈ resolve_reference ex root_dir ref₀ fp) :
    ∀ (refs : List String) (s : ScanState), ref₀ ∈ refs → tgt ∈ s.all_files →
      fp ∈ refLookup ((refs.foldl (fun s ref =>
        addEdges s fp (resolve_reference ex root_dir ref fp)) s)).file_references tgt
  | [], _, hmem, _ => absurd hmem (List.not_mem_nil _)
  | r :: refs, s, hmem, hall => by
    rw [List.foldl_cons]
    rcases List.mem_cons.mp hmem with he | he
    · subst he
      exact refsFold_lookup_mono root_dir ex fp tgt fp refs _
        (addEdges_attain _ _ _ _ hres hall)
    · apply refsFold_attain root_dir ex fp tgt ref₀ hres refs _ he
      show tgt ∈ (addEdges s fp _).all_files
      rw [addEdges_all_files]
      exact hall

/-! ## Lemmas about the processing of a single file -/

theorem scanFile_all_files_mono (cfg : Config) (root_dir : String) (ex : String → Bool)
    (cur : String) (st : ScanState) (f : FSFile) {x : String} (h : x ∈ st.all_files) :
    x ∈ (scanFile cfg root_dir ex cur st f).all_files := by
  unfold scanFile
  dsimp only
  split
  · exact h
  · split
    · exact h
    · split
      · rw [refsFold_all_files]
        exact insertNew_mem h
      · exact insertNew_mem h

theorem scanFile_lookup_mono (cfg : Config) (root_dir : String) (ex : String → Bool)
    (cur : String) (st : ScanState) (f : FSFile) {k x : String}
    (h : x ∈ refLookup st.file_references k) :
    x ∈ refLookup (scanFile cfg root_dir ex cur st f).file_references k := by
  unfold scanFile
  dsimp only
  split
  · exact h
  · split
    · exact h
    · split
      · exact refsFold_lookup_mono root_dir ex _ k x f.refs _ h
      · exact h

theorem scanFile_nodup (cfg : Config) (root_dir : String) (ex : String → Bool)
    (cur : String) (st : ScanState) (f : FSFile) (h : st.all_files.Nodup) :
    (scanFile cfg root_dir ex cur st f).all_files.Nodup := by
  unfold scanFile
  dsimp only
  split
  · exact h
  · split
    · exact h
    · split
      · rw [refsFold_all_files]
        exact insertNew_nodup h
      · exact insertNew_nodup h

theorem scanFile_key_inv (cfg : Config) (root_dir : String) (ex : String → Bool)
    (cur : String) (st : ScanState) (f : FSFile)
    (h : ∀ k, isKey st.file_references k = true → k ∈ st.all_files) :
    ∀ k, isKey (scanFile cfg root_dir ex cur st f).file_references k = true →
      k ∈ (scanFile cfg root_dir ex cur st f).all_files := by
  unfold scanFile
  dsimp only
  split
  · exact h
  · split
    · exact h
    · split
      · intro k hk
        have hmain := refsFold_key_inv root_dir ex (joinPath cur f.name)
          (insertNew st.all_files (joinPath cur f.name)) f.refs
          { st with all_files := insertNew st.all_files (joinPath cur f.name) }
          rfl (fun k hk2 => insertNew_mem (h k hk2))
        rw [hmain.1]
        exact hmain.2 k hk
      · exact fun k hk => insertNew_mem (h k hk)

theorem scanFile_attain (cfg : Config) (root_dir : String) (ex : String → Bool)
    (cur : String) (f : FSFile)
    (hig : should_ignore_file cfg (relpath (joinPath cur f.name) root_dir) = false)
    (hsz : cfg.min_file_size ≤ f.size ∧ f.size ≤ cfg.max_file_size)
    (hsc : is_scannable_file cfg (relpath (joinPath cur f.name) root_dir) = true)
    (hself : ∃ ref ∈ f.refs, joinPath cur f.name ∈
      resolve_reference ex root_dir ref (joinPath cur f.name)) :
    ∀ st, joinPath cur f.name ∈
      refLookup (scanFile cfg root_dir ex cur st f).file_references (joinPath cur f.name) := by
  intro st
  unfold scanFile
  dsimp only
  rw [if_neg (by simp [hig]), if_neg (by simp; omega), if_pos hsc]
  rcases hself with ⟨ref₀, hr0, hres⟩
  exact refsFold_attain root_dir ex _ _ ref₀ hres f.refs _ hr0 (insertNew_self _ _)

/-! ## Lemmas about the walk -/

mutual
theorem walkDir_pres (cfg : Config) (root_dir : String) (ex : String → Bool)
    (P : ScanState → Prop)
    (hstep : ∀ cur st f, P st → P (scanFile cfg root_dir ex cur st f)) :
    ∀ (parent : String) (st : ScanState) (d : FSDir),
      P st → P (walkDir cfg root_dir ex parent st d)
  | parent, st, .mk name files subs, h => by
    rw [walkDir]
    split
    · exact h
    · exact walkDirs_pres cfg root_dir ex P hstep _ _ subs
        (foldl_pres P (fun a x ha => hstep _ a x ha) files st h)

theorem walkDirs_pres (cfg : Config) (root_dir : String) (ex : String → Bool)
    (P : ScanState → Prop)
    (hstep : ∀ cur st f, P st → P (scanFile cfg root_dir ex cur st f)) :
    ∀ (cur : String) (st : ScanState) (l : List FSDir),
      P st → P (walkDirs cfg root_dir ex cur st l)
  | _, st, [], h => by
    rw [walkDirs]
    exact h
  | cur, st, d :: rest, h => by
    rw [walkDirs]
    exact walkDirs_pres cfg root_dir ex P hstep cur _ rest
      (walkDir_pres cfg root_dir ex P hstep cur st d h)
end

theorem walkDirs_presOf (cfg : Config) (root_dir : String) (ex : String → Bool)
    (P : ScanState → Prop)
    (hmono : ∀ p st d, P st → P (walkDir cfg root_dir ex p st d)) :
    ∀ (cur : String) (l : List FSDir) (st : ScanState),
      P st → P (walkDirs cfg root_dir ex cur st l)
  | _, [], st, h => by
    rw [walkDirs]
    exact h
  | cur, d :: rest, st, h => by
    rw [walkDirs]
    exact walkDirs_presOf cfg root_dir ex P hmono cur rest _ (hmono cur st d h)

theorem walkDirs_attain (cfg : Config) (root_dir : String) (ex : String → Bool)
    (P : ScanState → Prop)
    (hmono : ∀ p st d, P st → P (walkDir cfg root_dir ex p st d))
    (d : FSDir) (cur : String) (hP : ∀ st, P (walkDir cfg root_dir ex cur st d)) :
    ∀ (l : List FSDir) (st : ScanState), d ∈ l → P (walkDirs cfg root_dir ex cur st l)
  | [], _, hmem => absurd hmem (List.not_mem_nil _)
  | e :: rest, st, hmem => by
    rw [walkDirs]
    rcases List.mem_cons.mp hmem with h | h
    · exact walkDirs_presOf cfg root_dir ex P hmono cur rest _ (h ▸ hP st)
    · exact walkDirs_attain cfg root_dir ex P hmono d cur hP rest _ h

theorem walkDirs_append (cfg : Config) (root_dir : String) (ex : String → Bool)
    (cur : String) :
    ∀ (l₁ l₂ : List FSDir) (st : ScanState),
      walkDirs cfg root_dir ex cur st (l₁ ++ l₂) =
        walkDirs cfg root_dir ex cur (walkDirs cfg root_dir ex cur st l₁) l₂
  | [], l₂, st => by simp [walkDirs]
  | d :: rest, l₂, st => by
    rw [List.cons_append, walkDirs, walkDirs]
    exact walkDirs_append cfg root_dir ex cur rest l₂ _

theorem walkDir_ignored (cfg : Config) (root_dir : String) (ex : String → Bool)
    (parent : String) (st : ScanState) (name : String) (files : List FSFile)
    (subs : List FSDir) (h : should_ignore_file cfg (joinPath parent name) = true) :
    walkDir cfg root_dir ex parent st (.mk name files subs) = st := by
  rw [walkDir]
  rw [if_pos h]

/-! ## Characterisation of the first classification pass -/

theorem classify_foldl (cfg : Config) (st : ScanState) (root_dir : String) :
    ∀ (files : List String) (df : DeadFiles),
      files.foldl (classifyStep cfg st root_dir) df =
        ⟨df.unreferenced ++ (files.filter (unrCond cfg st)).map (fun f => relpath f root_dir),
         df.orphaned,
         df.suspicious ++ (files.filter (susCond cfg st)).map (fun f => relpath f root_dir)⟩
  | [], df => by simp
  | f :: rest, df => by
    rw [List.foldl_cons, classify_foldl cfg st root_dir rest]
    rcases h1 : cfg.special_files.contains (basename f) with _ | _
    · have hm1 : basename f ∉ cfg.special_files := by simpa using h1
      rcases h2 : isKey st.file_references f with _ | _
      · rcases h3 : is_potentially_important f with _ | _
        · simp [classifyStep, unrCond, susCond, deadCand, h1, hm1, h2, h3, List.filter_cons]
        · simp [classifyStep, unrCond, susCond, deadCand, h1, hm1, h2, h3, List.filter_cons]
      · simp [classifyStep, unrCond, susCond, deadCand, h1, hm1, h2, List.filter_cons]
    · have hm1 : basename f ∈ cfg.special_files := by simpa using h1
      simp [classifyStep, unrCond, susCond, deadCand, h1, hm1, List.filter_cons]

/-! ## Characterisation of the orphan-reclassification pass -/

theorem orphan_foldl (cfg : Config) (st : ScanState) (root_dir : String)
    (hinj : ∀ a ∈ st.all_files, ∀ b ∈ st.all_files,
      relpath a root_dir = relpath b root_dir → a = b) :
    ∀ (rest : List String) (df : DeadFiles),
      rest.Nodup → (∀ f ∈ rest, f ∈ st.all_files) →
      (∀ r, r ∈ df.unreferenced ↔
        ((∃ f ∈ st.all_files, r = relpath f root_dir ∧ unrCond cfg st f = true) ∧
          r ∉ df.orphaned)) →
      df.unreferenced.Nodup →
      (∀ r, r ∈ df.orphaned ↔
        ∃ f ∈ st.all_files, f ∉ rest ∧ r = relpath f root_dir ∧
          orphCond cfg st f = true) →
      (∀ r, r ∈ (rest.foldl (orphanStep st root_dir) df).orphaned ↔
          ∃ f ∈ st.all_files, r = relpath f root_dir ∧ orphCond cfg st f = true) ∧
      (∀ r, r ∈ (rest.foldl (orphanStep st root_dir) df).unreferenced ↔
          ((∃ f ∈ st.all_files, r = relpath f root_dir ∧ unrCond cfg st f = true) ∧
            r ∉ (rest.foldl (orphanStep st root_dir) df).orphaned)) ∧
      (rest.foldl (orphanStep st root_dir) df).suspicious = df.suspicious
  | [], df, _, _, hU, _, hO => by
    refine ⟨fun r => ?_, fun r => ?_, rfl⟩
    · rw [List.foldl_nil, hO r]
      simp
    · rw [List.foldl_nil]
      exact hU r
  | f₀ :: rest', df, hN, hsub, hU, hUN, hO => by
    have hf₀all : f₀ ∈ st.all_files := hsub f₀ (List.mem_cons_self f₀ rest')
    have hf₀nr : f₀ ∉ rest' := (List.nodup_cons.mp hN).1
    have fact1 : relpath f₀ root_dir ∉ df.orphaned := by
      intro hmem
      rcases (hO _).mp hmem with ⟨g, hgall, hgnr, hgrel, -⟩
      exact hgnr ((hinj g hgall f₀ hf₀all hgrel.symm) ▸ List.mem_cons_self f₀ rest')
    have fact2 : relpath f₀ root_dir ∈ df.unreferenced ↔ unrCond cfg st f₀ = true := by
      rw [hU]
      constructor
      · rintro ⟨⟨g, hg, hrel, hcond⟩, -⟩
        rwa [hinj f₀ hf₀all g hg hrel]
      · intro hc
        exact ⟨⟨f₀, hf₀all, rfl, hc⟩, fact1⟩
    have hstep_eq : orphanStep st root_dir df f₀ =
        if dirFileCount st.all_files (dirname f₀) = 1 &&
            df.unreferenced.contains (relpath f₀ root_dir) &&
            !(is_potentially_important f₀) then
          ⟨df.unreferenced.erase (relpath f₀ root_dir),
            df.orphaned ++ [relpath f₀ root_dir], df.suspicious⟩
        else df := rfl
    have hN' : rest'.Nodup := (List.nodup_cons.mp hN).2
    have hsub' : ∀ f ∈ rest', f ∈ st.all_files :=
      fun f hf => hsub f (List.mem_cons_of_mem f₀ hf)
    rw [List.foldl_cons]
    rcases hc : (decide (dirFileCount st.all_files (dirname f₀) = 1) &&
        df.unreferenced.contains (relpath f₀ root_dir) &&
        !(is_potentially_important f₀)) with _ | _
    · -- the orphan condition fails for f₀
      rw [hstep_eq, hc, if_neg (by simp)]
      have horphf₀ : orphCond cfg st f₀ = false := by
        rcases horph : orphCond cfg st f₀ with _ | _
        · rfl
        · exfalso
          have horph2 := horph
          unfold orphCond at horph2
          rw [Bool.and_eq_true] at horph2
          have hun : unrCond cfg st f₀ = true := horph2.1
          have hcnt : dirFileCount st.all_files (dirname f₀) = 1 := by
            simpa using horph2.2
          have hun2 := hun
          unfold unrCond at hun2
          rw [Bool.and_eq_true] at hun2
          have himp : is_potentially_important f₀ = false := by
            simpa using hun2.2
          have hcontains : df.unreferenced.contains (relpath f₀ root_dir) = true :=
            List.elem_iff.mpr (fact2.mpr hun)
          rw [hcnt, hcontains, himp] at hc
          simp at hc
      have hO' : ∀ r, r ∈ df.orphaned ↔
          ∃ f ∈ st.all_files, f ∉ rest' ∧ r = relpath f root_dir ∧
            orphCond cfg st f = true := by
        intro r
        rw [hO r]
        constructor
        · rintro ⟨g, hg, hgnr, hgrel, hgc⟩
          exact ⟨g, hg, fun hh => hgnr (List.mem_cons_of_mem f₀ hh), hgrel, hgc⟩
        · rintro ⟨g, hg, hgnr, hgrel, hgc⟩
          by_cases hgf : g = f₀
          · rw [hgf] at hgc
            rw [horphf₀] at hgc
            exact absurd hgc (by simp)
          · exact ⟨g, hg, fun hh => (List.mem_cons.mp hh).elim hgf hgnr, hgrel, hgc⟩
      exact orphan_foldl cfg st root_dir hinj rest' df hN' hsub' hU hUN hO'
    · -- f₀ moves from unreferenced to orphaned
      rw [hstep_eq, hc, if_pos rfl]
      have hc' := hc
      rw [Bool.and_eq_true, Bool.and_eq_true] at hc'
      have hcnt : dirFileCount st.all_files (dirname f₀) = 1 := by
        have := hc'.1.1
        simpa using this
      have hmemU : relpath f₀ root_dir ∈ df.unreferenced := List.elem_iff.mp hc'.1.2
      have hunr₀ : unrCond cfg st f₀ = true := fact2.mp hmemU
      have horph₀ : orphCond cfg st f₀ = true := by
        unfold orphCond
        rw [hunr₀, hcnt]
        simp
      have hU' : ∀ r, r ∈ df.unreferenced.erase (relpath f₀ root_dir) ↔
          ((∃ f ∈ st.all_files, r = relpath f root_dir ∧ unrCond cfg st f = true) ∧
            r ∉ df.orphaned ++ [relpath f₀ root_dir]) := by
        intro r
        rw [List.Nodup.mem_erase_iff hUN, hU r, List.mem_append, List.mem_singleton]
        constructor
        · rintro ⟨hne, hE, hnotO⟩
          exact ⟨hE, fun hh => hh.elim hnotO hne⟩
        · rintro ⟨hE, hnot⟩
          exact ⟨fun hh => hnot (Or.inr hh), hE, fun hh => hnot (Or.inl hh)⟩
      have hO' : ∀ r, r ∈ df.orphaned ++ [relpath f₀ root_dir] ↔
          ∃ f ∈ st.all_files, f ∉ rest' ∧ r = relpath f root_dir ∧
            orphCond cfg st f = true := by
        intro r
        rw [List.mem_append, List.mem_singleton, hO r]
        constructor
        · rintro (⟨g, hg, hgnr, hgrel, hgc⟩ | rfl)
          · exact ⟨g, hg, fun hh => hgnr (List.mem_cons_of_mem f₀ hh), hgrel, hgc⟩
          · exact ⟨f₀, hf₀all, hf₀nr, rfl, horph₀⟩
        · rintro ⟨g, hg, hgnr, hgrel, hgc⟩
          by_cases hgf : g = f₀
          · right
            rw [hgrel, hgf]
          · left
            exact ⟨g, hg, fun hh => (List.mem_cons.mp hh).elim hgf hgnr, hgrel, hgc⟩
      exact orphan_foldl cfg st root_dir hinj rest'
        ⟨df.unreferenced.erase (relpath f₀ root_dir),
          df.orphaned ++ [relpath f₀ root_dir], df.suspicious⟩
        hN' hsub' hU' (hUN.erase _) hO'

/-! ## Full characterisation of `find_dead_files` -/

theorem find_dead_spec (cfg : Config) (st : ScanState) (root_dir : String) (df : DeadFiles)
    (hn : st.all_files.Nodup)
    (hinj : ∀ a ∈ st.all_files, ∀ b ∈ st.all_files,
      relpath a root_dir = relpath b root_dir → a = b)
    (hok : find_dead_files cfg st root_dir = .ok df) :
    (∀ r, r ∈ df.suspicious ↔
      ∃ f ∈ st.all_files, r = relpath f root_dir ∧ susCond cfg st f = true) ∧
    (∀ r, r ∈ df.orphaned ↔
      ∃ f ∈ st.all_files, r = relpath f root_dir ∧ orphCond cfg st f = true) ∧
    (∀ r, r ∈ df.unreferenced ↔
      ∃ f ∈ st.all_files, r = relpath f root_dir ∧ unrCond cfg st f = true ∧
        dirFileCount st.all_files (dirname f) ≠ 1) := by
  unfold find_dead_files at hok
  split at hok
  · exact absurd hok (by simp)
  · have hstep1 := classify_foldl cfg st root_dir st.all_files ⟨[], [], []⟩
    simp only [List.nil_append] at hstep1
    rw [hstep1] at hok
    have hdf := (Except.ok.injEq _ _).mp hok
    have hU₀ : ∀ r,
        r ∈ (st.all_files.filter (unrCond cfg st)).map (fun f => relpath f root_dir) ↔
        ((∃ f ∈ st.all_files, r = relpath f root_dir ∧ unrCond cfg st f = true) ∧
          r ∉ ([] : List String)) := by
      intro r
      constructor
      · intro hr
        rcases List.mem_map.mp hr with ⟨f, hf, hrel⟩
        rcases List.mem_filter.mp hf with ⟨hfall, hcond⟩
        exact ⟨⟨f, hfall, hrel.symm, hcond⟩, List.not_mem_nil r⟩
      · rintro ⟨⟨f, hfall, hrel, hcond⟩, -⟩
        exact List.mem_map.mpr ⟨f, List.mem_filter.mpr ⟨hfall, hcond⟩, hrel.symm⟩
    have hUN₀ : ((st.all_files.filter (unrCond cfg st)).map
        (fun f => relpath f root_dir)).Nodup := by
      refine List.Nodup.map_on ?_ (hn.filter _)
      intro x hx y hy hxy
      exact hinj x (List.mem_filter.mp hx).1 y (List.mem_filter.mp hy).1 hxy
    have hO₀ : ∀ r, r ∈ ([] : List String) ↔
        ∃ f ∈ st.all_files, f ∉ st.all_files ∧ r = relpath f root_dir ∧
          orphCond cfg st f = true := by
      intro r
      constructor
      · intro h
        exact absurd h (List.not_mem_nil r)
      · rintro ⟨f, hf, hnf, -, -⟩
        exact absurd hf hnf
    have hmain := orphan_foldl cfg st root_dir hinj st.all_files
      ⟨(st.all_files.filter (unrCond cfg st)).map (fun f => relpath f root_dir), [],
        (st.all_files.filter (susCond cfg st)).map (fun f => relpath f root_dir)⟩
      hn (fun f hf => hf) hU₀ hUN₀ hO₀
    rw [hdf] at hmain
    refine ⟨fun r => ?_, hmain.1, fun r => ?_⟩
    · rw [hmain.2.2]
      constructor
      · intro hr
        rcases List.mem_map.mp hr with ⟨f, hf, hrel⟩
        rcases List.mem_filter.mp hf with ⟨hfall, hcond⟩
        exact ⟨f, hfall, hrel.symm, hcond⟩
      · rintro ⟨f, hfall, hrel, hcond⟩
        exact List.mem_map.mpr ⟨f, List.mem_filter.mpr ⟨hfall, hcond⟩, hrel.symm⟩
    · rw [hmain.2.1]
      constructor
      · rintro ⟨⟨f, hf, hrel, hcond⟩, hno⟩
        refine ⟨f, hf, hrel, hcond, fun hcnt => hno ?_⟩
        refine (hmain.1 r).mpr ⟨f, hf, hrel, ?_⟩
        unfold orphCond
        rw [hcond, hcnt]
        simp
      · rintro ⟨f, hf, hrel, hcond, hcnt⟩
        refine ⟨⟨f, hf, hrel, hcond⟩, fun hmem => ?_⟩
        rcases (hmain.1 r).mp hmem with ⟨g, hg, hgrel, hgorph⟩
        have hgf : g = f := hinj g hg f hf (hgrel.symm.trans hrel)
        rw [hgf] at hgorph
        unfold orphCond at hgorph
        rw [Bool.and_eq_true] at hgorph
        exact hcnt (by simpa using hgorph.2)

/-! ## Reachability of a file under the walk -/

/-- `ReachesFile cfg parent d loc f`: inside the subtree `d` rooted at
`parent`, the walker reaches the regular file `f` whose containing
directory has absolute path `loc`; no directory on the way down
(including `d` itself) matches an ignore pattern. -/
inductive ReachesFile (cfg : Config) : String → FSDir → String → FSFile → Prop where
  | here {parent name : String} {files : List FSFile} {subs : List FSDir} {f : FSFile} :
      should_ignore_file cfg (joinPath parent name) = false → f ∈ files →
      ReachesFile cfg parent (.mk name files subs) (joinPath parent name) f
  | there {parent name : String} {files : List FSFile} {subs : List FSDir}
      {d : FSDir} {loc : String} {f : FSFile} :
      should_ignore_file cfg (joinPath parent name) = false → d ∈ subs →
      ReachesFile cfg (joinPath parent name) d loc f →
      ReachesFile cfg parent (.mk name files subs) loc f

/-- A file of the scanned tree reached by the walk: either a direct file
of the root directory, or reached inside one of the root's subtrees. -/
def ReachesInScan (cfg : Config) (root_dir : String) (root_files : List FSFile)
    (root_subs : List FSDir) (loc : String) (f : FSFile) : Prop :=
  (f ∈ root_files ∧ loc = root_dir) ∨
    ∃ d ∈ root_subs, ReachesFile cfg root_dir d loc f

theorem reach_attain (cfg : Config) (root_dir : String) (ex : String → Bool)
    {parent loc : String} {d : FSDir} {f : FSFile}
    (hr : ReachesFile cfg parent d loc f) :
    should_ignore_file cfg (relpath (joinPath loc f.name) root_dir) = false →
    cfg.min_file_size ≤ f.size ∧ f.size ≤ cfg.max_file_size →
    is_scannable_file cfg (relpath (joinPath loc f.name) root_dir) = true →
    (∃ ref ∈ f.refs, joinPath loc f.name ∈
      resolve_reference ex root_dir ref (joinPath loc f.name)) →
    ∀ st, joinPath loc f.name ∈
      refLookup (walkDir cfg root_dir ex parent st d).file_references
        (joinPath loc f.name) := by
  induction hr with
  | @here parent name files subs f hig2 hmem =>
    intro hig hsz hsc hself st
    rw [walkDir, if_neg (by simp [hig2])]
    refine walkDirs_presOf cfg root_dir ex
      (fun s => joinPath (joinPath parent name) f.name ∈
        refLookup s.file_references (joinPath (joinPath parent name) f.name))
      (fun p st' d' h => walkDir_pres cfg root_dir ex _
        (fun cur st'' f'' h'' => scanFile_lookup_mono cfg root_dir ex cur st'' f'' h'')
        p st' d' h) _ _ _ ?_
    exact foldl_attain _
      (fun a y ha => scanFile_lookup_mono cfg root_dir ex _ a y ha)
      (fun a => scanFile_attain cfg root_dir ex _ f hig hsz hsc hself a) _ st hmem
  | @there parent name files subs d loc f hig2 hd hrec ih =>
    intro hig hsz hsc hself st
    rw [walkDir, if_neg (by simp [hig2])]
    exact walkDirs_attain cfg root_dir ex
      (fun s => joinPath loc f.name ∈
        refLookup s.file_references (joinPath loc f.name))
      (fun p st' d' h => walkDir_pres cfg root_dir ex _
        (fun cur st'' f'' h'' => scanFile_lookup_mono cfg root_dir ex cur st'' f'' h'')
        p st' d' h)
      d _ (fun st' => ih hig hsz hsc hself st') _ _ hd

/-! ## Scan-level invariants -/

theorem scan_key_inv (cfg : Config) (root_dir : String) (root_files : List FSFile)
    (root_subs : List FSDir) :
    ∀ k, isKey (scan_repository cfg root_dir root_files root_subs).file_references k = true →
      k ∈ (scan_repository cfg root_dir root_files root_subs).all_files := by
  intro k hk
  unfold scan_repository at hk ⊢
  refine walkDirs_pres cfg root_dir _
    (fun s => ∀ k, isKey s.file_references k = true → k ∈ s.all_files)
    (fun cur st f h => scanFile_key_inv cfg root_dir _ cur st f h)
    root_dir _ root_subs ?_ k hk
  refine foldl_pres _
    (fun a x ha => scanFile_key_inv cfg root_dir _ root_dir a x ha) root_files _ ?_
  intro k2 hk2
  simp [isKey] at hk2

theorem scan_nodup (cfg : Config) (root_dir : String) (root_files : List FSFile)
    (root_subs : List FSDir) :
    (scan_repository cfg root_dir root_files root_subs).all_files.Nodup := by
  unfold scan_repository
  refine walkDirs_pres cfg root_dir _ (fun s => s.all_files.Nodup)
    (fun cur st f h => scanFile_nodup cfg root_dir _ cur st f h) root_dir _ root_subs ?_
  exact foldl_pres _
    (fun a x ha => scanFile_nodup cfg root_dir _ root_dir a x ha) root_files _ List.nodup_nil

theorem scan_reach_edge (cfg : Config) (root_dir : String) (root_files : List FSFile)
    (root_subs : List FSDir) {loc : String} {f : FSFile}
    (hreach : ReachesInScan cfg root_dir root_files root_subs loc f)
    (hig : should_ignore_file cfg (relpath (joinPath loc f.name) root_dir) = false)
    (hsz : cfg.min_file_size ≤ f.size ∧ f.size ≤ cfg.max_file_size)
    (hsc : is_scannable_file cfg (relpath (joinPath loc f.name) root_dir) = true)
    (hself : ∃ ref ∈ f.refs, joinPath loc f.name ∈
      resolve_reference (fsExists root_dir root_files root_subs) root_dir ref
        (joinPath loc f.name)) :
    joinPath loc f.name ∈
      refLookup (scan_repository cfg root_dir root_files root_subs).file_references
        (joinPath loc f.name) := by
  unfold scan_repository
  rcases hreach with ⟨hmem, hloc⟩ | ⟨d, hd, hr⟩
  · subst hloc
    refine walkDirs_presOf cfg loc _
      (fun s => joinPath loc f.name ∈
        refLookup s.file_references (joinPath loc f.name))
      (fun p st' d' h => walkDir_pres cfg loc _ _
        (fun cur st'' f'' h'' =>
          scanFile_lookup_mono cfg loc _ cur st'' f'' h'') p st' d' h)
      _ _ _ ?_
    exact foldl_attain _
      (fun a y ha => scanFile_lookup_mono cfg loc _ loc a y ha)
      (fun a => scanFile_attain cfg loc _ loc f hig hsz hsc hself a) _ _ hmem
  · exact walkDirs_attain cfg root_dir _
      (fun s => joinPath loc f.name ∈
        refLookup s.file_references (joinPath loc f.name))
      (fun p st' d' h => walkDir_pres cfg root_dir _ _
        (fun cur st'' f'' h'' =>
          scanFile_lookup_mono cfg root_dir _ cur st'' f'' h'') p st' d' h)
      d _ (reach_attain cfg root_dir _ hr hig hsz hsc hself) _ _ hd

/-! ## Unfolding the classification conditions -/

theorem deadCand_iff (cfg : Config) (st : ScanState) (f : String) :
    deadCand cfg st f = true ↔
      (basename f ∉ cfg.special_files ∧ isKey st.file_references f = false) := by
  unfold deadCand
  rw [Bool.and_eq_true]
  simp

theorem susCond_iff (cfg : Config) (st : ScanState) (f : String) :
    susCond cfg st f = true ↔
      (basename f ∉ cfg.special_files ∧ isKey st.file_references f = false ∧
        is_potentially_important f = true) := by
  unfold susCond
  rw [Bool.and_eq_true, deadCand_iff]
  tauto

theorem unrCond_iff (cfg : Config) (st : ScanState) (f : String) :
    unrCond cfg st f = true ↔
      (basename f ∉ cfg.special_files ∧ isKey st.file_references f = false ∧
        is_potentially_important f = false) := by
  unfold unrCond
  rw [Bool.and_eq_true, deadCand_iff]
  simp only [Bool.not_eq_true']
  tauto

theorem orphCond_iff (cfg : Config) (st : ScanState) (f : String) :
    orphCond cfg st f = true ↔
      (basename f ∉ cfg.special_files ∧ isKey st.file_references f = false ∧
        is_potentially_important f = false ∧
        dirFileCount st.all_files (dirname f) = 1) := by
  unfold orphCond
  rw [Bool.and_eq_true, unrCond_iff]
  simp only [beq_iff_eq]
  tauto

/-! ## Claims about the classifier -/

/-- Claim C2: for every tracked universe and reference graph (with the
tracked paths pairwise distinct and root-relative paths injective on
them, as holds for the absolute paths of one scan), `find_dead_files`
partitions the universe: `unreferenced`, `orphaned` and `suspicious` are
pairwise disjoint, every entry of the three lists is the relative path
of a tracked file, every tracked file lands in exactly one of the five
groups (the three dead lists, the special-named files, and the
referenced-and-not-special files), and a file in a dead list is neither
special nor referenced. -/
theorem C2_classification_partition (cfg : Config) (st : ScanState) (root_dir : String)
    (df : DeadFiles) (hn : st.all_files.Nodup)
    (hinj : ∀ a ∈ st.all_files, ∀ b ∈ st.all_files,
      relpath a root_dir = relpath b root_dir → a = b)
    (hok : find_dead_files cfg st root_dir = .ok df) :
    (∀ r, ¬(r ∈ df.unreferenced ∧ r ∈ df.orphaned)) ∧
    (∀ r, ¬(r ∈ df.unreferenced ∧ r ∈ df.suspicious)) ∧
    (∀ r, ¬(r ∈ df.orphaned ∧ r ∈ df.suspicious)) ∧
    (∀ r, r ∈ df.unreferenced ∨ r ∈ df.orphaned ∨ r ∈ df.suspicious →
      ∃ f ∈ st.all_files, r = relpath f root_dir) ∧
    (∀ f ∈ st.all_files,
      relpath f root_dir ∈ df.unreferenced ∨ relpath f root_dir ∈ df.orphaned ∨
        relpath f root_dir ∈ df.suspicious ∨ basename f ∈ cfg.special_files ∨
        (isKey st.file_references f = true ∧ basename f ∉ cfg.special_files)) ∧
    (∀ f ∈ st.all_files,
      (relpath f root_dir ∈ df.unreferenced ∨ relpath f root_dir ∈ df.orphaned ∨
        relpath f root_dir ∈ df.suspicious) →
      basename f ∉ cfg.special_files ∧ isKey st.file_references f = false) := by
  obtain ⟨hs, ho, hu⟩ := find_dead_spec cfg st root_dir df hn hinj hok
  refine ⟨fun r ⟨h1, h2⟩ => ?_, fun r ⟨h1, h2⟩ => ?_, fun r ⟨h1, h2⟩ => ?_,
    fun r hr => ?_, fun f hf => ?_, fun f hf hr => ?_⟩
  · rcases (hu r).mp h1 with ⟨f, hf, hrel, hcond, hcnt⟩
    rcases (ho r).mp h2 with ⟨g, hg, hgrel, hgorph⟩
    rw [hinj f hf g hg (hrel.symm.trans hgrel)] at hcnt
    exact hcnt ((orphCond_iff cfg st g).mp hgorph).2.2.2
  · rcases (hu r).mp h1 with ⟨f, hf, hrel, hcond, -⟩
    rcases (hs r).mp h2 with ⟨g, hg, hgrel, hgsus⟩
    rw [hinj f hf g hg (hrel.symm.trans hgrel)] at hcond
    exact absurd ((susCond_iff cfg st g).mp hgsus).2.2
      (by simp [((unrCond_iff cfg st g).mp hcond).2.2])
  · rcases (ho r).mp h1 with ⟨f, hf, hrel, hcond⟩
    rcases (hs r).mp h2 with ⟨g, hg, hgrel, hgsus⟩
    rw [hinj f hf g hg (hrel.symm.trans hgrel)] at hcond
    exact absurd ((susCond_iff cfg st g).mp hgsus).2.2
      (by simp [((orphCond_iff cfg st g).mp hcond).2.2.1])
  · rcases hr with h | h | h
    · rcases (hu r).mp h with ⟨f, hf, hrel, -⟩
      exact ⟨f, hf, hrel⟩
    · rcases (ho r).mp h with ⟨f, hf, hrel, -⟩
      exact ⟨f, hf, hrel⟩
    · rcases (hs r).mp h with ⟨f, hf, hrel, -⟩
      exact ⟨f, hf, hrel⟩
  · by_cases h1 : basename f ∈ cfg.special_files
    · exact Or.inr (Or.inr (Or.inr (Or.inl h1)))
    · rcases h2 : isKey st.file_references f with _ | _
      · rcases h3 : is_potentially_important f with _ | _
        · by_cases h4 : dirFileCount st.all_files (dirname f) = 1
          · refine Or.inr (Or.inl ((ho _).mpr ⟨f, hf, rfl, ?_⟩))
            exact (orphCond_iff cfg st f).mpr ⟨h1, h2, h3, h4⟩
          · refine Or.inl ((hu _).mpr ⟨f, hf, rfl, ?_, h4⟩)
            exact (unrCond_iff cfg st f).mpr ⟨h1, h2, h3⟩
        · refine Or.inr (Or.inr (Or.inl ((hs _).mpr ⟨f, hf, rfl, ?_⟩)))
          exact (susCond_iff cfg st f).mpr ⟨h1, h2, h3⟩
      · exact Or.inr (Or.inr (Or.inr (Or.inr ⟨rfl, h1⟩)))
  · rcases hr with h | h | h
    · rcases (hu _).mp h with ⟨g, hg, hgrel, hgcond, -⟩
      rw [← hinj f hf g hg hgrel] at hgcond
      have := (unrCond_iff cfg st f).mp hgcond
      exact ⟨this.1, this.2.1⟩
    · rcases (ho _).mp h with ⟨g, hg, hgrel, hgcond⟩
      rw [← hinj f hf g hg hgrel] at hgcond
      have := (orphCond_iff cfg st f).mp hgcond
      exact ⟨this.1, this.2.1⟩
    · rcases (hs _).mp h with ⟨g, hg, hgrel, hgcond⟩
      rw [← hinj f hf g hg hgrel] at hgcond
      have := (susCond_iff cfg st f).mp hgcond
      exact ⟨this.1, this.2.1⟩

/-- Claim C3: a tracked, non-special file with no inbound edge whose
basename matches the entry-point heuristic is always classified
`suspicious`, and never `orphaned` or `unreferenced` — with no
assumption on how many tracked files share its directory, so in
particular also when it is the sole occupant. -/
theorem C3_entry_point_precedence (cfg : Config) (st : ScanState) (root_dir : String)
    (df : DeadFiles) (f : String) (hn : st.all_files.Nodup)
    (hinj : ∀ a ∈ st.all_files, ∀ b ∈ st.all_files,
      relpath a root_dir = relpath b root_dir → a = b)
    (hok : find_dead_files cfg st root_dir = .ok df)
    (hf : f ∈ st.all_files) (hns : basename f ∉ cfg.special_files)
    (hnk : isKey st.file_references f = false)
    (him : is_potentially_important f = true) :
    relpath f root_dir ∈ df.suspicious ∧ relpath f root_dir ∉ df.orphaned ∧
      relpath f root_dir ∉ df.unreferenced := by
  obtain ⟨hs, ho, hu⟩ := find_dead_spec cfg st root_dir df hn hinj hok
  refine ⟨(hs _).mpr ⟨f, hf, rfl, (susCond_iff cfg st f).mpr ⟨hns, hnk, him⟩⟩,
    fun h => ?_, fun h => ?_⟩
  · rcases (ho _).mp h with ⟨g, hg, hgrel, hgcond⟩
    rw [← hinj f hf g hg hgrel] at hgcond
    rw [((orphCond_iff cfg st f).mp hgcond).2.2.1] at him
    exact absurd him (by simp)
  · rcases (hu _).mp h with ⟨g, hg, hgrel, hgcond, -⟩
    rw [← hinj f hf g hg hgrel] at hgcond
    rw [((unrCond_iff cfg st f).mp hgcond).2.2] at him
    exact absurd him (by simp)

/-- Claim C4: every path in `orphaned` is the relative path of a tracked
file whose containing directory holds exactly one tracked file; and a
dead-candidate file (tracked, not special, no inbound edge) ends in
`orphaned` exactly when its directory count is one and it does not
match the entry-point heuristic. -/
theorem C4_orphan_single_occupant (cfg : Config) (st : ScanState) (root_dir : String)
    (df : DeadFiles) (hn : st.all_files.Nodup)
    (hinj : ∀ a ∈ st.all_files, ∀ b ∈ st.all_files,
      relpath a root_dir = relpath b root_dir → a = b)
    (hok : find_dead_files cfg st root_dir = .ok df) :
    (∀ r ∈ df.orphaned, ∃ f ∈ st.all_files, r = relpath f root_dir ∧
      dirFileCount st.all_files (dirname f) = 1) ∧
    (∀ f ∈ st.all_files, basename f ∉ cfg.special_files →
      isKey st.file_references f = false →
      (relpath f root_dir ∈ df.orphaned ↔
        (dirFileCount st.all_files (dirname f) = 1 ∧
          is_potentially_important f = false))) := by
  obtain ⟨hs, ho, hu⟩ := find_dead_spec cfg st root_dir df hn hinj hok
  constructor
  · intro r hr
    rcases (ho r).mp hr with ⟨f, hf, hrel, hcond⟩
    exact ⟨f, hf, hrel, ((orphCond_iff cfg st f).mp hcond).2.2.2⟩
  · intro f hf hns hnk
    constructor
    · intro h
      rcases (ho _).mp h with ⟨g, hg, hgrel, hgcond⟩
      rw [← hinj f hf g hg hgrel] at hgcond
      have := (orphCond_iff cfg st f).mp hgcond
      exact ⟨this.2.2.2, this.2.2.1⟩
    · rintro ⟨hcnt, him⟩
      exact (ho _).mpr ⟨f, hf, rfl, (orphCond_iff cfg st f).mpr ⟨hns, hnk, him, hcnt⟩⟩

/-- Claim C7: a tracked file whose basename is one of the configured
special names never appears in `unreferenced`, `orphaned` or
`suspicious`, whatever its inbound reference count. -/
theorem C7_special_file_exemption (cfg : Config) (st : ScanState) (root_dir : String)
    (df : DeadFiles) (f : String) (hn : st.all_files.Nodup)
    (hinj : ∀ a ∈ st.all_files, ∀ b ∈ st.all_files,
      relpath a root_dir = relpath b root_dir → a = b)
    (hok : find_dead_files cfg st root_dir = .ok df)
    (hf : f ∈ st.all_files) (hsp : basename f ∈ cfg.special_files) :
    relpath f root_dir ∉ df.unreferenced ∧ relpath f root_dir ∉ df.orphaned ∧
      relpath f root_dir ∉ df.suspicious := by
  obtain ⟨hs, ho, hu⟩ := find_dead_spec cfg st root_dir df hn hinj hok
  refine ⟨fun h => ?_, fun h => ?_, fun h => ?_⟩
  · rcases (hu _).mp h with ⟨g, hg, hgrel, hgcond, -⟩
    rw [← hinj f hf g hg hgrel] at hgcond
    exact ((unrCond_iff cfg st f).mp hgcond).1 hsp
  · rcases (ho _).mp h with ⟨g, hg, hgrel, hgcond⟩
    rw [← hinj f hf g hg hgrel] at hgcond
    exact ((orphCond_iff cfg st f).mp hgcond).1 hsp
  · rcases (hs _).mp h with ⟨g, hg, hgrel, hgcond⟩
    rw [← hinj f hf g hg hgrel] at hgcond
    exact ((susCond_iff cfg st f).mp hgcond).1 hsp

/-- Claim C9: calling `find_dead_files` on an empty tracked universe
(in particular before any scan) surfaces the `ValueError` to the caller
instead of returning a defaulted classification; on a non-empty
universe it returns the three-way classification without error. -/
theorem C9_classifier_requires_scan (cfg : Config) (st : ScanState) (root_dir : String) :
    (st.all_files = [] → find_dead_files cfg st root_dir =
      .error "Repository not scanned yet. Call scan_repository() first.") ∧
    (st.all_files ≠ [] → ∃ df, find_dead_files cfg st root_dir = .ok df) := by
  constructor
  · intro h
    unfold find_dead_files
    rw [if_pos (by simp [h])]
  · intro h
    unfold find_dead_files
    rw [if_neg (by simp [h])]
    exact ⟨_, rfl⟩

/-! ## Claims about the walker and the resolver -/

/-- Claim C5: a directory whose path (as tested by the walker before
descent) matches an ignore pattern — by shell-style glob or substring,
exactly `_should_ignore_file` — is pruned: walking it leaves the scan
state unchanged, and its presence among the siblings does not change the
walk at all. Since the tracked universe, the reference graph and the
classification are functions of that state, no file under such a
directory ever contributes to any of them. -/
theorem C5_ignored_directory_pruned (cfg : Config) (root_dir : String)
    (ex : String → Bool) (parent : String) (st : ScanState) (name : String)
    (files : List FSFile) (subs : List FSDir) (pre post : List FSDir)
    (hig : should_ignore_file cfg (joinPath parent name) = true) :
    walkDir cfg root_dir ex parent st (.mk name files subs) = st ∧
    walkDirs cfg root_dir ex parent st (pre ++ .mk name files subs :: post) =
      walkDirs cfg root_dir ex parent st (pre ++ post) := by
  refine ⟨walkDir_ignored cfg root_dir ex parent st name files subs hig, ?_⟩
  rw [walkDirs_append, walkDirs_append, walkDirs,
    walkDir_ignored cfg root_dir ex parent _ name files subs hig]

/-- Claim C6: for a reference string with no extension the resolver
keeps the existing referrer-relative and root-relative joins of the bare
reference, then for each extension of the fixed probe list, in order,
accepts the first existing candidate among the referrer-relative and the
root-relative join of the extended reference; the accepted candidates of
all steps are concatenated, no step short-circuits the others. The right
hand side phrases each probe step as the specification does: the head of
the existing candidates among the two ordered joins. -/
theorem C6_resolver_probe_order (ex : String → Bool)
    (root_dir reference base_path : String) (h : pathSuffix reference = "") :
    resolve_reference ex root_dir reference base_path =
      (if ex (joinPath (dirname base_path) reference) then
        [normpath (joinPath (dirname base_path) reference)] else []) ++
      ((if ex (joinPath root_dir reference) then
        [normpath (joinPath root_dir reference)] else []) ++
      probe_extensions.flatMap (fun ext =>
        match ([joinPath (dirname base_path) (reference ++ ext),
                joinPath root_dir (reference ++ ext)].filter (fun c => ex c)).head? with
        | some c => [normpath c]
        | none => [])) := by
  have hfun : (fun ext =>
      if ex (joinPath (dirname base_path) (reference ++ ext)) then
        [normpath (joinPath (dirname base_path) (reference ++ ext))]
      else if ex (joinPath root_dir (reference ++ ext)) then
        [normpath (joinPath root_dir (reference ++ ext))]
      else []) = (fun ext =>
      match ([joinPath (dirname base_path) (reference ++ ext),
              joinPath root_dir (reference ++ ext)].filter (fun c => ex c)).head? with
      | some c => [normpath c]
      | none => []) := by
    funext ext
    rcases hx1 : ex (joinPath (dirname base_path) (reference ++ ext)) with _ | _ <;>
      rcases hx2 : ex (joinPath root_dir (reference ++ ext)) with _ | _ <;>
        simp [hx1, hx2, List.filter_cons, List.filter_nil]
  unfold resolve_reference
  rw [if_pos h, List.append_assoc, hfun]

/-- Claim C8: after a scan every key of the reference graph is a member
of the tracked universe; a resolved candidate that is not tracked —
outside the repository, ignored, or size-filtered — never produces a
graph entry. -/
theorem C8_graph_keys_tracked (cfg : Config) (root_dir : String)
    (root_files : List FSFile) (root_subs : List FSDir) (k : String)
    (hk : isKey (scan_repository cfg root_dir root_files root_subs).file_references
      k = true) :
    k ∈ (scan_repository cfg root_dir root_files root_subs).all_files :=
  scan_key_inv cfg root_dir root_files root_subs k hk

/-- Claim C10: a tracked scannable file one of whose extracted
references resolves to the file itself gains a self-edge (the file
enters the universe before its own content is resolved), is therefore a
key of the reference graph, and is excluded from `unreferenced`,
`orphaned` and `suspicious` even with no other referrer. -/
theorem C10_self_reference_live (cfg : Config) (root_dir : String)
    (root_files : List FSFile) (root_subs : List FSDir) (loc : String) (f : FSFile)
    (hreach : ReachesInScan cfg root_dir root_files root_subs loc f)
    (hig : should_ignore_file cfg (relpath (joinPath loc f.name) root_dir) = false)
    (hsz : cfg.min_file_size ≤ f.size ∧ f.size ≤ cfg.max_file_size)
    (hsc : is_scannable_file cfg (relpath (joinPath loc f.name) root_dir) = true)
    (hself : ∃ ref ∈ f.refs, joinPath loc f.name ∈
      resolve_reference (fsExists root_dir root_files root_subs) root_dir ref
        (joinPath loc f.name)) :
    joinPath loc f.name ∈
      refLookup (scan_repository cfg root_dir root_files root_subs).file_references
        (joinPath loc f.name) ∧
    isKey (scan_repository cfg root_dir root_files root_subs).file_references
      (joinPath loc f.name) = true ∧
    (∀ df, find_dead_files cfg (scan_repository cfg root_dir root_files root_subs)
        root_dir = .ok df →
      (∀ a ∈ (scan_repository cfg root_dir root_files root_subs).all_files,
        ∀ b ∈ (scan_repository cfg root_dir root_files root_subs).all_files,
        relpath a root_dir = relpath b root_dir → a = b) →
      relpath (joinPath loc f.name) root_dir ∉ df.unreferenced ∧
      relpath (joinPath loc f.name) root_dir ∉ df.orphaned ∧
      relpath (joinPath loc f.name) root_dir ∉ df.suspicious) := by
  have hedge := scan_reach_edge cfg root_dir root_files root_subs hreach hig hsz hsc hself
  have hkey := mem_refLookup_isKey hedge
  refine ⟨hedge, hkey, fun df hok hinj => ?_⟩
  have hmem := scan_key_inv cfg root_dir root_files root_subs _ hkey
  obtain ⟨hs, ho, hu⟩ := find_dead_spec cfg _ root_dir df
    (scan_nodup cfg root_dir root_files root_subs) hinj hok
  refine ⟨fun h => ?_, fun h => ?_, fun h => ?_⟩
  · rcases (hu _).mp h with ⟨g, hg, hgrel, hgcond, -⟩
    rw [← hinj _ hmem g hg hgrel] at hgcond
    exact absurd hkey (by simp [((unrCond_iff cfg _ _).mp hgcond).2.1])
  · rcases (ho _).mp h with ⟨g, hg, hgrel, hgcond⟩
    rw [← hinj _ hmem g hg hgrel] at hgcond
    exact absurd hkey (by simp [((orphCond_iff cfg _ _).mp hgcond).2.1])
  · rcases (hs _).mp h with ⟨g, hg, hgrel, hgcond⟩
    rw [← hinj _ hmem g hg hgrel] at hgcond
    exact absurd hkey (by simp [((susCond_iff cfg _ _).mp hgcond).2.1])

/-! ## Claim C1: the round-trip scenario -/

/-- The repository of the round-trip scenario: `src/main.py` contains
the extension-less reference `./helpers/parse`, and `src/helpers/parse.py`
exists and survives every filter. -/
def c1_tree : FSDir :=
  .mk "src" [⟨"main.py", 20, ["./helpers/parse"]⟩]
    [.mk "helpers" [⟨"parse.py", 20, []⟩] []]

/-- The scan of the round-trip repository. -/
def c1_scan : ScanState := scan_repository default_config "/repo" [] [c1_tree]

/-- Claim C1 (refuted by evaluation of the code on its own round-trip
scenario): both files are tracked and the extension-probing resolver
does yield the tracked candidate `/repo/src/helpers/parse.py`, yet the
reference graph ends the scan empty — the promised edge from
`src/helpers/parse.py` to `src/main.py` is missing. The cause is the
membership test `resolved in self.all_files`, which runs against the
universe as built so far: top-down `os.walk` processes `src/main.py`
before `src/helpers/parse.py` has been added. -/
theorem C1_roundtrip_edge_missing :
    "/repo/src/main.py" ∈ c1_scan.all_files ∧
    "/repo/src/helpers/parse.py" ∈ c1_scan.all_files ∧
    "/repo/src/helpers/parse.py" ∈
      resolve_reference (fsExists "/repo" [] [c1_tree]) "/repo" "./helpers/parse"
        "/repo/src/main.py" ∧
    c1_scan.file_references = [] := by decide

/-! ## Concrete witnesses -/

/-- A concrete scanned state: `main.py` (entry point, unreferenced),
`a.py` (referenced by `main.py`), `b.txt` (unreferenced, shared
directory), `solo/legacy.js` (unreferenced, sole occupant of its
directory), `README.md` (special). -/
def w_state : ScanState :=
  ⟨["/r/main.py", "/r/a.py", "/r/b.txt", "/r/solo/legacy.js", "/r/README.md"],
   [("/r/a.py", ["/r/main.py"])]⟩

/-- A state whose only entry-point file is the sole occupant of its
directory. -/
def w3_state : ScanState := ⟨["/r/solo/main.py", "/r/x.py"], []⟩

theorem C2_classification_partition_witness :
    find_dead_files default_config w_state "/r" =
      Except.ok ⟨["b.txt"], ["solo/legacy.js"], ["main.py"]⟩ ∧
    ¬("b.txt" ∈ (DeadFiles.mk ["b.txt"] ["solo/legacy.js"] ["main.py"]).unreferenced ∧
      "b.txt" ∈ (DeadFiles.mk ["b.txt"] ["solo/legacy.js"] ["main.py"]).orphaned) :=
  ⟨by decide,
   (C2_classification_partition default_config w_state "/r"
     ⟨["b.txt"], ["solo/legacy.js"], ["main.py"]⟩
     (by decide) (by decide) (by decide)).1 "b.txt"⟩

theorem C3_entry_point_precedence_witness :
    find_dead_files default_config w3_state "/r" =
      Except.ok ⟨[], ["x.py"], ["solo/main.py"]⟩ ∧
    (relpath "/r/solo/main.py" "/r" ∈
        (DeadFiles.mk [] ["x.py"] ["solo/main.py"]).suspicious ∧
      relpath "/r/solo/main.py" "/r" ∉
        (DeadFiles.mk [] ["x.py"] ["solo/main.py"]).orphaned ∧
      relpath "/r/solo/main.py" "/r" ∉
        (DeadFiles.mk [] ["x.py"] ["solo/main.py"]).unreferenced) :=
  ⟨by decide,
   C3_entry_point_precedence default_config w3_state "/r"
     ⟨[], ["x.py"], ["solo/main.py"]⟩ "/r/solo/main.py"
     (by decide) (by decide) (by decide) (by decide) (by decide) (by decide) (by decide)⟩

theorem C4_orphan_single_occupant_witness :
    find_dead_files default_config w_state "/r" =
      Except.ok ⟨["b.txt"], ["solo/legacy.js"], ["main.py"]⟩ ∧
    (relpath "/r/solo/legacy.js" "/r" ∈
        (DeadFiles.mk ["b.txt"] ["solo/legacy.js"] ["main.py"]).orphaned ↔
      (dirFileCount w_state.all_files (dirname "/r/solo/legacy.js") = 1 ∧
        is_potentially_important "/r/solo/legacy.js" = false)) :=
  ⟨by decide,
   (C4_orphan_single_occupant default_config w_state "/r"
     ⟨["b.txt"], ["solo/legacy.js"], ["main.py"]⟩
     (by decide) (by decide) (by decide)).2 "/r/solo/legacy.js"
     (by decide) (by decide) (by decide)⟩

theorem C5_ignored_directory_pruned_witness :
    should_ignore_file default_config (joinPath "/repo" ".env") = true ∧
    walkDir default_config "/repo" (fun _ => false) "/repo" ⟨[], []⟩
      (.mk ".env" [⟨"cache.py", 5, []⟩] []) = ⟨[], []⟩ :=
  ⟨by decide,
   (C5_ignored_directory_pruned default_config "/repo" (fun _ => false) "/repo"
     ⟨[], []⟩ ".env" [⟨"cache.py", 5, []⟩] [] [] [] (by decide)).1⟩

theorem C6_resolver_probe_order_witness :
    pathSuffix "./helpers/parse" = "" ∧
    resolve_reference (fun p => normpath p == "/repo/src/helpers/parse.py") "/repo"
      "./helpers/parse" "/repo/src/main.py" = ["/repo/src/helpers/parse.py"] := by
  refine ⟨by decide, ?_⟩
  rw [C6_resolver_probe_order (fun p => normpath p == "/repo/src/helpers/parse.py")
    "/repo" "./helpers/parse" "/repo/src/main.py" (by decide)]
  decide

theorem C7_special_file_exemption_witness :
    find_dead_files default_config w_state "/r" =
      Except.ok ⟨["b.txt"], ["solo/legacy.js"], ["main.py"]⟩ ∧
    (relpath "/r/README.md" "/r" ∉
        (DeadFiles.mk ["b.txt"] ["solo/legacy.js"] ["main.py"]).unreferenced ∧
      relpath "/r/README.md" "/r" ∉
        (DeadFiles.mk ["b.txt"] ["solo/legacy.js"] ["main.py"]).orphaned ∧
      relpath "/r/README.md" "/r" ∉
        (DeadFiles.mk ["b.txt"] ["solo/legacy.js"] ["main.py"]).suspicious) :=
  ⟨by decide,
   C7_special_file_exemption default_config w_state "/r"
     ⟨["b.txt"], ["solo/legacy.js"], ["main.py"]⟩ "/r/README.md"
     (by decide) (by decide) (by decide) (by decide) (by decide)⟩

theorem C8_graph_keys_tracked_witness :
    isKey (scan_repository default_config "/r"
      [⟨"b.py", 5, []⟩, ⟨"a.py", 5, ["b.py"]⟩] []).file_references "/r/b.py" = true ∧
    "/r/b.py" ∈ (scan_repository default_config "/r"
      [⟨"b.py", 5, []⟩, ⟨"a.py", 5, ["b.py"]⟩] []).all_files :=
  ⟨by decide,
   C8_graph_keys_tracked default_config "/r"
     [⟨"b.py", 5, []⟩, ⟨"a.py", 5, ["b.py"]⟩] [] "/r/b.py" (by decide)⟩

theorem C9_classifier_requires_scan_witness :
    find_dead_files default_config ⟨[], []⟩ "/r" =
      Except.error "Repository not scanned yet. Call scan_repository() first." ∧
    (∃ df, find_dead_files default_config w_state "/r" = Except.ok df) :=
  ⟨(C9_classifier_requires_scan default_config ⟨[], []⟩ "/r").1 rfl,
   (C9_classifier_requires_scan default_config w_state "/r").2 (by decide)⟩

theorem C10_self_reference_live_witness :
    "/r/a.py" ∈ refLookup (scan_repository default_config "/r"
      [⟨"a.py", 5, ["a.py"]⟩] []).file_references "/r/a.py" ∧
    relpath "/r/a.py" "/r" ∉ (DeadFiles.mk [] [] []).unreferenced := by
  have h := C10_self_reference_live default_config "/r" [⟨"a.py", 5, ["a.py"]⟩] [] "/r"
    ⟨"a.py", 5, ["a.py"]⟩
    (Or.inl ⟨List.mem_singleton.mpr rfl, rfl⟩)
    (by decide) (by decide) (by decide)
    ⟨"a.py", List.mem_singleton.mpr rfl, by decide⟩
  exact ⟨h.1, (h.2.2 ⟨[], [], []⟩ (by decide) (by decide)).1⟩

end DeadFileDetector
